import Mathlib

/-!
Shallow embedding of the real-time collaboration core of the
Pair-Programming-Application repository (backend/app/websockets.py and
backend/app/database.py), together with proofs of the specified
properties of the connection registry, the broadcast router and the
per-connection protocol handler.

Channels (WebSocket objects) are modelled as natural-number identifiers.
The Python dict is modelled as an association list with Python-dict
semantics (replace in place on existing key, append on new key).  A send
failure on a channel (`send_json` raising) is modelled by a predicate
`fails : Chan → Bool` fixed for the run.
-/

namespace PairProg

abbrev Chan := Nat
abbrev RoomId := String

/-- A row of the `rooms` table, restricted to the fields the WebSocket
core reads and writes (`code`, `language`). -/
structure Room where
  code : String
  language : String
deriving DecidableEq, Repr

/-! ### Association-list operations with Python-dict semantics -/

/-- Dictionary lookup: first entry with the given key. -/
def alistFind {β : Type} : List (RoomId × β) → RoomId → Option β
  | [], _ => none
  | p :: ps, r => if p.1 = r then some p.2 else alistFind ps r

/-- Dictionary assignment `d[r] = v`: replace in place when the key is
present, append when absent (Python insertion order). -/
def alistSet {β : Type} : List (RoomId × β) → RoomId → β → List (RoomId × β)
  | [], r, v => [(r, v)]
  | p :: ps, r, v => if p.1 = r then (r, v) :: ps else p :: alistSet ps r v

/-- Dictionary deletion `del d[r]`: remove the entry with the given key. -/
def alistDel {β : Type} : List (RoomId × β) → RoomId → List (RoomId × β)
  | [], _ => []
  | p :: ps, r => if p.1 = r then ps else p :: alistDel ps r

/-! ### Room store (database.py) -/

/-- The room store: the `rooms` table as a map from `room_id` to row. -/
abbrev DB := List (RoomId × Room)

/-- Model of `get_room`: retrieve room by ID; `none` when not found. -/
def get_room (db : DB) (room_id : RoomId) : Option Room :=
  alistFind db room_id

/-- Model of `update_room_code`: look the room up, overwrite its `code` field
when present and report `true`; report `false` when the room is absent,
leaving the store unchanged. -/
def update_room_code (db : DB) (room_id : RoomId) (code : String) : Bool × DB :=
  match get_room db room_id with
  | some room => (true, alistSet db room_id { room with code := code })
  | none => (false, db)

/-! ### Messages -/

/-- A server→client envelope (`send_json` payloads built in
websockets.py). -/
inductive ServerMsg where
  | init (code : String) (roomId : RoomId) (language : String)
  | user_count (count : Nat)
  | code_update (code : String) (cursorPosition : Int)
  | cursor_move (cursorPosition : Int)
  | code_output (output : Option String) (error : Option String) (status : String)
deriving DecidableEq, Repr

/-- Whether an envelope is an `init` envelope. -/
def ServerMsg.isInit : ServerMsg → Bool
  | .init _ _ _ => true
  | _ => false

/-- A successfully parsed inbound JSON object, with the fields the
handler reads; `none` models an absent key (so `message.get(k, d)`
becomes `getD`). -/
structure JsonMsg where
  type : Option String := none
  code : Option String := none
  cursorPosition : Option Int := none
  output : Option String := none
  error : Option String := none
  status : Option String := none
deriving DecidableEq, Repr

/-- The result of reading one frame: `json.loads` either raises
(malformed text) or yields a parsed object. -/
inductive Inbound where
  | malformed
  | parsed (m : JsonMsg)
deriving DecidableEq, Repr

/-- One observable event on the connection while the handler awaits
`receive_text`: a frame arrives, the peer disconnects
(`WebSocketDisconnect`), or the read fails with some other exception. -/
inductive Event where
  | recv (i : Inbound)
  | wsDisconnect
  | recvError
deriving DecidableEq, Repr

/-! ### ConnectionManager (websockets.py) -/

/-- The connection registry: `room_id -> List[WebSocket]`. -/
structure ConnectionManager where
  active_connections : List (RoomId × List Chan)
deriving DecidableEq, Repr

namespace ConnectionManager

/-- Lookup of a room key: `room_id in self.active_connections` and
`self.active_connections[room_id]`. -/
def lookupRoom (m : ConnectionManager) (room_id : RoomId) : Option (List Chan) :=
  alistFind m.active_connections room_id

/-- Assignment `self.active_connections[room_id] = conns`. -/
def setRoom (m : ConnectionManager) (room_id : RoomId) (conns : List Chan) :
    ConnectionManager :=
  ⟨alistSet m.active_connections room_id conns⟩

/-- Deletion `del self.active_connections[room_id]`. -/
def delRoom (m : ConnectionManager) (room_id : RoomId) : ConnectionManager :=
  ⟨alistDel m.active_connections room_id⟩

/-- Model of `connect`: initialize the room's connection list if needed, then
append the new connection. -/
def connect (m : ConnectionManager) (websocket : Chan) (room_id : RoomId) :
    ConnectionManager :=
  let m1 := if (m.lookupRoom room_id).isSome then m else m.setRoom room_id []
  m1.setRoom room_id (((m1.lookupRoom room_id).getD []) ++ [websocket])

/-- Model of `disconnect`: remove the connection from the room's list (a missing
connection raises `ValueError`, which is swallowed), and delete the
room's entry when the list becomes empty. -/
def disconnect (m : ConnectionManager) (websocket : Chan) (room_id : RoomId) :
    ConnectionManager :=
  match m.lookupRoom room_id with
  | none => m
  | some conns =>
    if websocket ∈ conns then
      let conns2 := conns.erase websocket
      if conns2.isEmpty then m.delRoom room_id else m.setRoom room_id conns2
    else m

/-- Loop body of `broadcast`: accumulate `(delivered, disconnected)`
over the room's connections, skipping the sender and collecting the
channels whose send raised. -/
def sendStep (sender : Option Chan) (fails : Chan → Bool)
    (acc : List Chan × List Chan) (connection : Chan) : List Chan × List Chan :=
  if some connection ≠ sender then
    if fails connection then (acc.1, acc.2 ++ [connection])
    else (acc.1 ++ [connection], acc.2)
  else acc

/-- Loop body of `broadcast_to_all`: like `sendStep` but with no sender
exclusion. -/
def sendStepAll (fails : Chan → Bool)
    (acc : List Chan × List Chan) (connection : Chan) : List Chan × List Chan :=
  if fails connection then (acc.1, acc.2 ++ [connection])
  else (acc.1 ++ [connection], acc.2)

/-- Model of `broadcast`: send the message to every connection of the room
except the sender, catching per-channel send errors; afterwards
`disconnect` each failed channel.  Returns the list of successful
deliveries (channel, message) in send order, and the updated manager. -/
def broadcast (m : ConnectionManager) (room_id : RoomId) (message : ServerMsg)
    (sender : Option Chan) (fails : Chan → Bool) :
    List (Chan × ServerMsg) × ConnectionManager :=
  match m.lookupRoom room_id with
  | none => ([], m)
  | some conns =>
    let res := conns.foldl (sendStep sender fails) ([], [])
    (res.1.map (fun c => (c, message)),
     res.2.foldl (fun mm conn => mm.disconnect conn room_id) m)

/-- Model of `broadcast_to_all`: send the message to every connection of the
room including the sender, catching per-channel send errors; afterwards
`disconnect` each failed channel. -/
def broadcast_to_all (m : ConnectionManager) (room_id : RoomId)
    (message : ServerMsg) (fails : Chan → Bool) :
    List (Chan × ServerMsg) × ConnectionManager :=
  match m.lookupRoom room_id with
  | none => ([], m)
  | some conns =>
    let res := conns.foldl (sendStepAll fails) ([], [])
    (res.1.map (fun c => (c, message)),
     res.2.foldl (fun mm conn => mm.disconnect conn room_id) m)

/-- Model of `get_room_user_count`, i.e.
`len(self.active_connections.get(room_id, []))`. -/
def get_room_user_count (m : ConnectionManager) (room_id : RoomId) : Nat :=
  ((m.lookupRoom room_id).getD []).length

end ConnectionManager

/-! ### The WebSocket endpoint (websocket_endpoint) -/

/-- How the handler has left (or not yet left) the message loop. -/
inductive CloseAction where
  | rejected (code : Nat) (reason : String)
  | disconnected
  | errored
  | pending
deriving DecidableEq, Repr

/-- The observable outcome of running the handler: final room store,
final registry, every successful server→client delivery in order, and
how the handler ended. -/
structure RunResult where
  db : DB
  mgr : ConnectionManager
  sent : List (Chan × ServerMsg)
  outcome : CloseAction
deriving DecidableEq, Repr

/-- One iteration body of the message-handling loop: dispatch a parsed
message on the type field read by message.get.  Returns the updated store, registry
and the deliveries this message caused; unrecognized types fall through
with no effect. -/
def handleParsed (db : DB) (mgr : ConnectionManager) (room_id : RoomId)
    (websocket : Chan) (fails : Chan → Bool) (message : JsonMsg) :
    DB × ConnectionManager × List (Chan × ServerMsg) :=
  let message_type := message.type
  if message_type = some "code_update" then
    let code := message.code.getD ""
    let cursor_position := message.cursorPosition.getD 0
    let db2 := (update_room_code db room_id code).2
    let res := mgr.broadcast room_id
      (ServerMsg.code_update code cursor_position) (some websocket) fails
    (db2, res.2, res.1)
  else if message_type = some "cursor_move" then
    let cursor_position := message.cursorPosition.getD 0
    let res := mgr.broadcast room_id
      (ServerMsg.cursor_move cursor_position) (some websocket) fails
    (db, res.2, res.1)
  else if message_type = some "code_output" then
    let execution_status := message.status.getD "running"
    let res := mgr.broadcast_to_all room_id
      (ServerMsg.code_output message.output message.error execution_status) fails
    (db, res.2, res.1)
  else
    (db, mgr, [])

/-- The `while True` message loop together with the two `except`
handlers at its boundary: a `WebSocketDisconnect` runs the
disconnect-plus-user-count cleanup; any other exception (a failed read,
or `json.loads` raising on malformed text) runs `manager.disconnect`
only. -/
def messageLoop (db : DB) (mgr : ConnectionManager) (room_id : RoomId)
    (websocket : Chan) (fails : Chan → Bool) : List Event → RunResult
  | [] => ⟨db, mgr, [], CloseAction.pending⟩
  | Event.wsDisconnect :: _ =>
    let mgr2 := mgr.disconnect websocket room_id
    let user_count := mgr2.get_room_user_count room_id
    let res := mgr2.broadcast_to_all room_id (ServerMsg.user_count user_count) fails
    ⟨db, res.2, res.1, CloseAction.disconnected⟩
  | Event.recvError :: _ =>
    ⟨db, mgr.disconnect websocket room_id, [], CloseAction.errored⟩
  | Event.recv Inbound.malformed :: _ =>
    ⟨db, mgr.disconnect websocket room_id, [], CloseAction.errored⟩
  | Event.recv (Inbound.parsed message) :: rest =>
    let step := handleParsed db mgr room_id websocket fails message
    let res := messageLoop step.1 step.2.1 room_id websocket fails rest
    ⟨res.db, res.mgr, step.2.2 ++ res.sent, res.outcome⟩

/-- Model of `websocket_endpoint`: verify the room exists (closing with code
4004 and reason "Room not found" on a miss), accept and register the
connection, send the `init` snapshot to the new client, broadcast the
updated user count to the whole room, then run the message loop over
the connection's events.  A raised send of the `init` snapshot falls to
the outer generic exception handler. -/
def websocket_endpoint (db : DB) (mgr : ConnectionManager) (websocket : Chan)
    (room_id : RoomId) (fails : Chan → Bool) (events : List Event) : RunResult :=
  match get_room db room_id with
  | none => ⟨db, mgr, [], CloseAction.rejected 4004 "Room not found"⟩
  | some room =>
    let mgr1 := mgr.connect websocket room_id
    if fails websocket then
      ⟨db, mgr1.disconnect websocket room_id, [], CloseAction.errored⟩
    else
      let initMsg := ServerMsg.init room.code room_id room.language
      let user_count := mgr1.get_room_user_count room_id
      let ucRes := mgr1.broadcast_to_all room_id (ServerMsg.user_count user_count) fails
      let res := messageLoop db ucRes.2 room_id websocket fails events
      ⟨res.db, res.mgr, (websocket, initMsg) :: ucRes.1 ++ res.sent, res.outcome⟩

/-! ### Registry invariants -/

/-- The registry's keys are pairwise distinct (a Python dict). -/
def KeysNodup (m : ConnectionManager) : Prop :=
  (m.active_connections.map Prod.fst).Nodup

/-- No registered room has an empty member list (empty rooms are pruned
eagerly). -/
def NoEmptyRooms (m : ConnectionManager) : Prop :=
  ∀ p ∈ m.active_connections, p.2 ≠ []

/-- The registry invariant: a genuine dict whose every entry has at
least one live connection. -/
def Good (m : ConnectionManager) : Prop :=
  KeysNodup m ∧ NoEmptyRooms m

/-! ### Association-list lemmas -/

theorem alistFind_set_self {β : Type} (ps : List (RoomId × β)) (r : RoomId) (v : β) :
    alistFind (alistSet ps r v) r = some v := by
  induction ps with
  | nil => simp [alistSet, alistFind]
  | cons p ps ih =>
    obtain ⟨a, b⟩ := p
    by_cases hp : a = r
    · simp [alistSet, hp, alistFind]
    · simp [alistSet, hp, alistFind, ih]

theorem alistFind_set_ne {β : Type} (ps : List (RoomId × β)) (r r' : RoomId) (v : β)
    (h : r' ≠ r) : alistFind (alistSet ps r v) r' = alistFind ps r' := by
  induction ps with
  | nil => simp [alistSet, alistFind, Ne.symm h]
  | cons p ps ih =>
    obtain ⟨a, b⟩ := p
    by_cases hp : a = r
    · subst hp
      simp [alistSet, alistFind, Ne.symm h]
    · simp [alistSet, hp, alistFind, ih]

theorem alistFind_eq_none {β : Type} (ps : List (RoomId × β)) (r : RoomId) :
    alistFind ps r = none ↔ r ∉ ps.map Prod.fst := by
  induction ps with
  | nil => simp [alistFind]
  | cons p ps ih =>
    obtain ⟨a, b⟩ := p
    by_cases hp : a = r
    · subst hp
      simp [alistFind]
    · simp [alistFind, hp, ih, Ne.symm hp]

theorem alistFind_del_self {β : Type} (ps : List (RoomId × β)) (r : RoomId)
    (h : (ps.map Prod.fst).Nodup) : alistFind (alistDel ps r) r = none := by
  induction ps with
  | nil => simp [alistDel, alistFind]
  | cons p ps ih =>
    obtain ⟨a, b⟩ := p
    rw [List.map_cons, List.nodup_cons] at h
    by_cases hp : a = r
    · subst hp
      simpa [alistDel, alistFind_eq_none] using h.1
    · simp [alistDel, hp, alistFind, ih h.2]

theorem alistFind_del_ne {β : Type} (ps : List (RoomId × β)) (r r' : RoomId)
    (h : r' ≠ r) : alistFind (alistDel ps r) r' = alistFind ps r' := by
  induction ps with
  | nil => rfl
  | cons p ps ih =>
    obtain ⟨a, b⟩ := p
    by_cases hp : a = r
    · subst hp
      simp [alistDel, alistFind, Ne.symm h]
    · simp [alistDel, hp, alistFind, ih]

theorem mem_keys_alistSet {β : Type} (ps : List (RoomId × β)) (r : RoomId) (v : β)
    (x : RoomId) :
    x ∈ (alistSet ps r v).map Prod.fst ↔ x ∈ ps.map Prod.fst ∨ x = r := by
  induction ps with
  | nil => simp [alistSet]
  | cons p ps ih =>
    obtain ⟨a, b⟩ := p
    by_cases hp : a = r
    · subst hp
      simp [alistSet]
      tauto
    · simp [alistSet, hp, ih]
      tauto

theorem keysNodup_alistSet {β : Type} (ps : List (RoomId × β)) (r : RoomId) (v : β)
    (h : (ps.map Prod.fst).Nodup) : ((alistSet ps r v).map Prod.fst).Nodup := by
  induction ps with
  | nil => simp [alistSet]
  | cons p ps ih =>
    obtain ⟨a, b⟩ := p
    rw [List.map_cons, List.nodup_cons] at h
    by_cases hp : a = r
    · subst hp
      simpa [alistSet, List.nodup_cons] using h
    · rw [show alistSet ((a, b) :: ps) r v = (a, b) :: alistSet ps r v by
        simp [alistSet, hp]]
      rw [List.map_cons, List.nodup_cons]
      refine ⟨fun hmem => ?_, ih h.2⟩
      rcases (mem_keys_alistSet ps r v a).mp hmem with h1 | h1
      · exact h.1 h1
      · exact hp h1

theorem mem_keys_alistDel {β : Type} (ps : List (RoomId × β)) (r x : RoomId)
    (h : x ∈ (alistDel ps r).map Prod.fst) : x ∈ ps.map Prod.fst := by
  induction ps with
  | nil => simpa [alistDel] using h
  | cons p ps ih =>
    obtain ⟨a, b⟩ := p
    by_cases hp : a = r
    · rw [show alistDel ((a, b) :: ps) r = ps from by simp [alistDel, hp]] at h
      rw [List.map_cons]
      exact List.mem_cons_of_mem _ h
    · rw [show alistDel ((a, b) :: ps) r = (a, b) :: alistDel ps r from by
        simp [alistDel, hp]] at h
      rw [List.map_cons] at h ⊢
      rcases List.mem_cons.mp h with h | h
      · exact List.mem_cons.mpr (Or.inl h)
      · exact List.mem_cons.mpr (Or.inr (ih h))

theorem keysNodup_alistDel {β : Type} (ps : List (RoomId × β)) (r : RoomId)
    (h : (ps.map Prod.fst).Nodup) : ((alistDel ps r).map Prod.fst).Nodup := by
  induction ps with
  | nil => simp [alistDel]
  | cons p ps ih =>
    obtain ⟨a, b⟩ := p
    rw [List.map_cons, List.nodup_cons] at h
    by_cases hp : a = r
    · subst hp
      simpa [alistDel] using h.2
    · rw [show alistDel ((a, b) :: ps) r = (a, b) :: alistDel ps r by
        simp [alistDel, hp]]
      rw [List.map_cons, List.nodup_cons]
      exact ⟨fun hmem => h.1 (mem_keys_alistDel ps r a hmem), ih h.2⟩

theorem mem_alistSet {β : Type} (ps : List (RoomId × β)) (r : RoomId) (v : β)
    (q : RoomId × β) (hnd : (ps.map Prod.fst).Nodup) (h : q ∈ alistSet ps r v) :
    (q ∈ ps ∧ q.1 ≠ r) ∨ q = (r, v) := by
  induction ps with
  | nil => simp [alistSet] at h; simp [h]
  | cons p ps ih =>
    obtain ⟨a, b⟩ := p
    rw [List.map_cons, List.nodup_cons] at hnd
    by_cases hp : a = r
    · rw [show alistSet ((a, b) :: ps) r v = (r, v) :: ps from by
        simp [alistSet, hp]] at h
      rcases List.mem_cons.mp h with h | h
      · exact Or.inr h
      · refine Or.inl ⟨List.mem_cons_of_mem _ h, fun hq => ?_⟩
        apply hnd.1
        rw [hp, ← hq]
        exact List.mem_map.mpr ⟨q, h, rfl⟩
    · simp [alistSet, hp] at h
      rcases h with h | h
      · exact Or.inl ⟨by simp [h], by simp [h, hp]⟩
      · rcases ih hnd.2 h with ⟨h1, h2⟩ | h1
        · exact Or.inl ⟨List.mem_cons_of_mem _ h1, h2⟩
        · exact Or.inr h1

theorem mem_alistDel {β : Type} (ps : List (RoomId × β)) (r : RoomId)
    (q : RoomId × β) (h : q ∈ alistDel ps r) : q ∈ ps := by
  induction ps with
  | nil => simpa [alistDel] using h
  | cons p ps ih =>
    obtain ⟨a, b⟩ := p
    by_cases hp : a = r
    · subst hp
      simp [alistDel] at h
      exact List.mem_cons_of_mem _ h
    · simp [alistDel, hp] at h
      rcases h with h | h
      · simp [h]
      · exact List.mem_cons_of_mem _ (ih h)

theorem alistFind_mem {β : Type} (ps : List (RoomId × β)) (r : RoomId) (v : β)
    (h : alistFind ps r = some v) : (r, v) ∈ ps := by
  induction ps with
  | nil => simp [alistFind] at h
  | cons p ps ih =>
    obtain ⟨a, b⟩ := p
    by_cases hp : a = r
    · subst hp
      simp [alistFind] at h
      simp [h]
    · simp [alistFind, hp] at h
      exact List.mem_cons_of_mem _ (ih h)

/-! ### Registry lemmas -/

theorem lookupRoom_setRoom_self (m : ConnectionManager) (r : RoomId) (l : List Chan) :
    (m.setRoom r l).lookupRoom r = some l :=
  alistFind_set_self m.active_connections r l

theorem lookupRoom_setRoom_ne (m : ConnectionManager) (r r' : RoomId) (l : List Chan)
    (h : r' ≠ r) : (m.setRoom r l).lookupRoom r' = m.lookupRoom r' :=
  alistFind_set_ne m.active_connections r r' l h

theorem lookupRoom_delRoom_self (m : ConnectionManager) (r : RoomId)
    (h : KeysNodup m) : (m.delRoom r).lookupRoom r = none :=
  alistFind_del_self m.active_connections r h

theorem lookupRoom_connect_self (m : ConnectionManager) (ws : Chan) (r : RoomId) :
    (m.connect ws r).lookupRoom r = some (((m.lookupRoom r).getD []) ++ [ws]) := by
  simp only [ConnectionManager.connect]
  by_cases h : (m.lookupRoom r).isSome
  · rw [if_pos h, lookupRoom_setRoom_self]
  · rw [if_neg h, lookupRoom_setRoom_self]
    have h2 : m.lookupRoom r = none := Option.not_isSome_iff_eq_none.mp h
    rw [show (m.setRoom r []).lookupRoom r = some [] from lookupRoom_setRoom_self m r []]
    simp [h2]

/-- Characterization of `disconnect` by the shape of the room's entry. -/
theorem disconnect_none (m : ConnectionManager) (ws : Chan) (r : RoomId)
    (h : m.lookupRoom r = none) : m.disconnect ws r = m := by
  unfold ConnectionManager.disconnect
  rw [h]

theorem disconnect_not_mem (m : ConnectionManager) (ws : Chan) (r : RoomId)
    (conns : List Chan) (h : m.lookupRoom r = some conns) (hws : ws ∉ conns) :
    m.disconnect ws r = m := by
  unfold ConnectionManager.disconnect
  rw [h]
  simp [hws]

theorem disconnect_mem_last (m : ConnectionManager) (ws : Chan) (r : RoomId)
    (conns : List Chan) (h : m.lookupRoom r = some conns) (hws : ws ∈ conns)
    (he : conns.erase ws = []) : m.disconnect ws r = m.delRoom r := by
  unfold ConnectionManager.disconnect
  rw [h]
  simp [hws, he]

theorem disconnect_mem_rest (m : ConnectionManager) (ws : Chan) (r : RoomId)
    (conns : List Chan) (h : m.lookupRoom r = some conns) (hws : ws ∈ conns)
    (he : conns.erase ws ≠ []) : m.disconnect ws r = m.setRoom r (conns.erase ws) := by
  unfold ConnectionManager.disconnect
  rw [h]
  simp only [hws, if_true, List.isEmpty_eq_true]
  rw [if_neg he]

/-- Preservation of the invariant by `setRoom` as soon as every entry of a key
other than the written one is non-empty. -/
theorem good_setRoom_strong (m : ConnectionManager) (r : RoomId) (l : List Chan)
    (hk : KeysNodup m) (hne : ∀ p ∈ m.active_connections, p.1 ≠ r → p.2 ≠ [])
    (hl : l ≠ []) : Good (m.setRoom r l) := by
  constructor
  · exact keysNodup_alistSet m.active_connections r l hk
  · intro p hp
    rcases mem_alistSet m.active_connections r l p hk hp with ⟨h1, h2⟩ | h1
    · exact hne p h1 h2
    · rw [h1]
      exact hl

theorem good_setRoom (m : ConnectionManager) (r : RoomId) (l : List Chan)
    (hm : Good m) (hl : l ≠ []) : Good (m.setRoom r l) :=
  good_setRoom_strong m r l hm.1 (fun p hp _ => hm.2 p hp) hl

theorem good_delRoom (m : ConnectionManager) (r : RoomId) (hm : Good m) :
    Good (m.delRoom r) := by
  constructor
  · exact keysNodup_alistDel m.active_connections r hm.1
  · intro p hp
    exact hm.2 p (mem_alistDel m.active_connections r p hp)

theorem good_connect (m : ConnectionManager) (ws : Chan) (r : RoomId)
    (hm : Good m) : Good (m.connect ws r) := by
  simp only [ConnectionManager.connect]
  by_cases h : (m.lookupRoom r).isSome
  · rw [if_pos h]
    exact good_setRoom m r _ hm (by simp)
  · rw [if_neg h]
    refine good_setRoom_strong _ r _
      (keysNodup_alistSet m.active_connections r [] hm.1) ?_ (by simp)
    intro p hp hpr
    rcases mem_alistSet m.active_connections r [] p hm.1 hp with ⟨h1, _⟩ | h1
    · exact hm.2 p h1
    · exact absurd (by rw [h1]) hpr

theorem good_disconnect (m : ConnectionManager) (ws : Chan) (r : RoomId)
    (hm : Good m) : Good (m.disconnect ws r) := by
  cases hl : m.lookupRoom r with
  | none => rw [disconnect_none m ws r hl]; exact hm
  | some conns =>
    by_cases hws : ws ∈ conns
    · by_cases he : conns.erase ws = []
      · rw [disconnect_mem_last m ws r conns hl hws he]
        exact good_delRoom m r hm
      · rw [disconnect_mem_rest m ws r conns hl hws he]
        exact good_setRoom m r _ hm he
    · rw [disconnect_not_mem m ws r conns hl hws]
      exact hm

theorem good_foldl_disconnect (r : RoomId) (ds : List Chan) :
    ∀ (m : ConnectionManager), Good m →
      Good (ds.foldl (fun mm conn => mm.disconnect conn r) m) := by
  induction ds with
  | nil => intro m hm; exact hm
  | cons d ds ih =>
    intro m hm
    exact ih (m.disconnect d r) (good_disconnect m d r hm)

/-! ### Broadcast lemmas -/

theorem sendFold_eq (sender : Option Chan) (fails : Chan → Bool) (conns : List Chan)
    (acc : List Chan × List Chan) :
    conns.foldl (ConnectionManager.sendStep sender fails) acc
      = (acc.1 ++ conns.filter (fun c => decide (some c ≠ sender) && !fails c),
         acc.2 ++ conns.filter (fun c => decide (some c ≠ sender) && fails c)) := by
  induction conns generalizing acc with
  | nil => simp
  | cons c cs ih =>
    rw [List.foldl_cons, ih]
    by_cases h1 : some c = sender
    · simp [ConnectionManager.sendStep, h1, List.filter_cons]
    · by_cases h2 : fails c
      · simp [ConnectionManager.sendStep, h1, h2, List.filter_cons]
      · simp [ConnectionManager.sendStep, h1, h2, List.filter_cons]

theorem sendFoldAll_eq (fails : Chan → Bool) (conns : List Chan)
    (acc : List Chan × List Chan) :
    conns.foldl (ConnectionManager.sendStepAll fails) acc
      = (acc.1 ++ conns.filter (fun c => !fails c),
         acc.2 ++ conns.filter (fun c => fails c)) := by
  induction conns generalizing acc with
  | nil => simp
  | cons c cs ih =>
    rw [List.foldl_cons, ih]
    by_cases h2 : fails c
    · simp [ConnectionManager.sendStepAll, h2, List.filter_cons]
    · simp [ConnectionManager.sendStepAll, h2, List.filter_cons]

theorem broadcast_none (m : ConnectionManager) (r : RoomId) (msg : ServerMsg)
    (sender : Option Chan) (fails : Chan → Bool) (h : m.lookupRoom r = none) :
    m.broadcast r msg sender fails = ([], m) := by
  unfold ConnectionManager.broadcast
  rw [h]

theorem broadcast_eq (m : ConnectionManager) (r : RoomId) (msg : ServerMsg)
    (sender : Option Chan) (fails : Chan → Bool) (conns : List Chan)
    (h : m.lookupRoom r = some conns) :
    m.broadcast r msg sender fails
      = ((conns.filter (fun c => decide (some c ≠ sender) && !fails c)).map
            (fun c => (c, msg)),
         (conns.filter (fun c => decide (some c ≠ sender) && fails c)).foldl
            (fun mm conn => mm.disconnect conn r) m) := by
  unfold ConnectionManager.broadcast
  rw [h]
  simp only [sendFold_eq, List.nil_append]

theorem broadcast_to_all_none (m : ConnectionManager) (r : RoomId) (msg : ServerMsg)
    (fails : Chan → Bool) (h : m.lookupRoom r = none) :
    m.broadcast_to_all r msg fails = ([], m) := by
  unfold ConnectionManager.broadcast_to_all
  rw [h]

theorem broadcast_to_all_eq (m : ConnectionManager) (r : RoomId) (msg : ServerMsg)
    (fails : Chan → Bool) (conns : List Chan) (h : m.lookupRoom r = some conns) :
    m.broadcast_to_all r msg fails
      = ((conns.filter (fun c => !fails c)).map (fun c => (c, msg)),
         (conns.filter (fun c => fails c)).foldl
            (fun mm conn => mm.disconnect conn r) m) := by
  unfold ConnectionManager.broadcast_to_all
  rw [h]
  simp only [sendFoldAll_eq, List.nil_append]

theorem good_broadcast (m : ConnectionManager) (r : RoomId) (msg : ServerMsg)
    (sender : Option Chan) (fails : Chan → Bool) (hm : Good m) :
    Good (m.broadcast r msg sender fails).2 := by
  cases h : m.lookupRoom r with
  | none => rw [broadcast_none m r msg sender fails h]; exact hm
  | some conns =>
    rw [broadcast_eq m r msg sender fails conns h]
    exact good_foldl_disconnect r _ m hm

theorem good_broadcast_to_all (m : ConnectionManager) (r : RoomId) (msg : ServerMsg)
    (fails : Chan → Bool) (hm : Good m) :
    Good (m.broadcast_to_all r msg fails).2 := by
  cases h : m.lookupRoom r with
  | none => rw [broadcast_to_all_none m r msg fails h]; exact hm
  | some conns =>
    rw [broadcast_to_all_eq m r msg fails conns h]
    exact good_foldl_disconnect r _ m hm

/-- Folding `disconnect` over a duplicate-free batch of members of room
`r` leaves exactly the non-batched members, pruning the entry when none
remain. -/
theorem foldl_disconnect_lookup (r : RoomId) (ds : List Chan) :
    ∀ (m : ConnectionManager) (l : List Chan), Good m →
      m.lookupRoom r = some l → l.Nodup → (∀ c ∈ ds, c ∈ l) → ds.Nodup →
      (ds.foldl (fun mm conn => mm.disconnect conn r) m).lookupRoom r
        = if l.filter (fun c => decide (c ∉ ds)) = [] then none
          else some (l.filter (fun c => decide (c ∉ ds))) := by
  induction ds with
  | nil =>
    intro m l hm hl _ _ _
    have hne : l ≠ [] := hm.2 (r, l) (alistFind_mem m.active_connections r l hl)
    have hfilter : l.filter (fun c => decide (c ∉ ([] : List Chan))) = l := by simp
    simp only [List.foldl_nil, hfilter]
    rw [if_neg hne]
    exact hl
  | cons d ds ih =>
    intro m l hm hl hnd hsub hdnd
    have hd : d ∈ l := hsub d (List.mem_cons_self d ds)
    rw [List.foldl_cons]
    rcases List.nodup_cons.mp hdnd with ⟨hdds, hdsnd⟩
    by_cases he : l.erase d = []
    · have hlen : l.length = 1 := by
        have h1 := List.length_erase_of_mem hd
        rw [he] at h1
        have h2 : 0 < l.length := List.length_pos_of_mem hd
        simp at h1
        omega
      rcases List.length_eq_one.mp hlen with ⟨a, ha⟩
      have hld : l = [d] := by
        rw [ha] at hd ⊢
        simp at hd
        rw [hd]
      have hds : ds = [] := by
        cases ds with
        | nil => rfl
        | cons e es =>
          exfalso
          have he2 : e ∈ l := hsub e (by simp)
          rw [hld] at he2
          simp at he2
          exact hdds (by rw [← he2]; exact List.mem_cons_self e es)
      subst hds
      rw [disconnect_mem_last m d r l hl hd he]
      simp only [List.foldl_nil]
      rw [lookupRoom_delRoom_self m r hm.1, hld]
      simp
    · rw [disconnect_mem_rest m d r l hl hd he]
      have hgood2 : Good (m.setRoom r (l.erase d)) := good_setRoom m r _ hm he
      have hl2 : (m.setRoom r (l.erase d)).lookupRoom r = some (l.erase d) :=
        lookupRoom_setRoom_self m r _
      have hnd2 : (l.erase d).Nodup := hnd.erase d
      have hsub2 : ∀ c ∈ ds, c ∈ l.erase d := by
        intro c hc
        have hcl : c ∈ l := hsub c (List.mem_cons_of_mem d hc)
        have hcd : c ≠ d := fun e => hdds (e ▸ hc)
        exact (List.mem_erase_of_ne hcd).mpr hcl
      rw [ih _ _ hgood2 hl2 hnd2 hsub2 hdsnd]
      have hff : (l.erase d).filter (fun c => decide (c ∉ ds))
          = l.filter (fun c => decide (c ∉ d :: ds)) := by
        rw [List.Nodup.erase_eq_filter hnd d, List.filter_filter]
        apply List.filter_congr
        intro c _
        by_cases h1 : c = d <;> by_cases h2 : c ∈ ds <;> simp [h1, h2]
      rw [hff]

/-! ### Handler-level helper lemmas -/

theorem update_room_code_failed (db : DB) (r : RoomId) (code : String)
    (h : (update_room_code db r code).1 = false) :
    (update_room_code db r code).2 = db := by
  cases hr : get_room db r with
  | none =>
    unfold update_room_code
    rw [hr]
  | some room =>
    exfalso
    unfold update_room_code at h
    rw [hr] at h
    simp at h

theorem get_room_update_room_code (db : DB) (r : RoomId) (code : String)
    (room : Room) (h : get_room db r = some room) :
    get_room (update_room_code db r code).2 r = some { room with code := code } := by
  unfold update_room_code
  rw [h]
  exact alistFind_set_self db r _

theorem broadcast_sent_msg (m : ConnectionManager) (r : RoomId) (msg : ServerMsg)
    (sender : Option Chan) (fails : Chan → Bool) (p : Chan × ServerMsg)
    (hp : p ∈ (m.broadcast r msg sender fails).1) : p.2 = msg := by
  cases h : m.lookupRoom r with
  | none =>
    rw [broadcast_none m r msg sender fails h] at hp
    simp at hp
  | some conns =>
    rw [broadcast_eq m r msg sender fails conns h] at hp
    rcases List.mem_map.mp hp with ⟨c, _, hpc⟩
    rw [← hpc]

theorem broadcast_to_all_sent_msg (m : ConnectionManager) (r : RoomId)
    (msg : ServerMsg) (fails : Chan → Bool) (p : Chan × ServerMsg)
    (hp : p ∈ (m.broadcast_to_all r msg fails).1) : p.2 = msg := by
  cases h : m.lookupRoom r with
  | none =>
    rw [broadcast_to_all_none m r msg fails h] at hp
    simp at hp
  | some conns =>
    rw [broadcast_to_all_eq m r msg fails conns h] at hp
    rcases List.mem_map.mp hp with ⟨c, _, hpc⟩
    rw [← hpc]

theorem messageLoop_wsDisconnect (db : DB) (mgr : ConnectionManager) (r : RoomId)
    (ws : Chan) (fails : Chan → Bool) (rest : List Event) :
    messageLoop db mgr r ws fails (Event.wsDisconnect :: rest)
      = ⟨db,
         ((mgr.disconnect ws r).broadcast_to_all r
            (ServerMsg.user_count ((mgr.disconnect ws r).get_room_user_count r)) fails).2,
         ((mgr.disconnect ws r).broadcast_to_all r
            (ServerMsg.user_count ((mgr.disconnect ws r).get_room_user_count r)) fails).1,
         CloseAction.disconnected⟩ := rfl

theorem messageLoop_parsed (db : DB) (mgr : ConnectionManager) (r : RoomId)
    (ws : Chan) (fails : Chan → Bool) (msg : JsonMsg) (rest : List Event) :
    messageLoop db mgr r ws fails (Event.recv (Inbound.parsed msg) :: rest)
      = ⟨(messageLoop (handleParsed db mgr r ws fails msg).1
            (handleParsed db mgr r ws fails msg).2.1 r ws fails rest).db,
         (messageLoop (handleParsed db mgr r ws fails msg).1
            (handleParsed db mgr r ws fails msg).2.1 r ws fails rest).mgr,
         (handleParsed db mgr r ws fails msg).2.2
           ++ (messageLoop (handleParsed db mgr r ws fails msg).1
                (handleParsed db mgr r ws fails msg).2.1 r ws fails rest).sent,
         (messageLoop (handleParsed db mgr r ws fails msg).1
            (handleParsed db mgr r ws fails msg).2.1 r ws fails rest).outcome⟩ := rfl

theorem handleParsed_sent_not_init (db : DB) (mgr : ConnectionManager) (r : RoomId)
    (ws : Chan) (fails : Chan → Bool) (msg : JsonMsg) (p : Chan × ServerMsg)
    (hp : p ∈ (handleParsed db mgr r ws fails msg).2.2) : p.2.isInit = false := by
  unfold handleParsed at hp
  by_cases h1 : msg.type = some "code_update"
  · rw [if_pos h1] at hp
    rw [broadcast_sent_msg mgr r _ (some ws) fails p hp]
    rfl
  · rw [if_neg h1] at hp
    by_cases h2 : msg.type = some "cursor_move"
    · rw [if_pos h2] at hp
      rw [broadcast_sent_msg mgr r _ (some ws) fails p hp]
      rfl
    · rw [if_neg h2] at hp
      by_cases h3 : msg.type = some "code_output"
      · rw [if_pos h3] at hp
        rw [broadcast_to_all_sent_msg mgr r _ fails p hp]
        rfl
      · rw [if_neg h3] at hp
        simp at hp

theorem messageLoop_no_init (r : RoomId) (ws : Chan) (fails : Chan → Bool) :
    ∀ (events : List Event) (db : DB) (mgr : ConnectionManager),
      ∀ p ∈ (messageLoop db mgr r ws fails events).sent, p.2.isInit = false := by
  intro events
  induction events with
  | nil =>
    intro db mgr p hp
    simp [messageLoop] at hp
  | cons e rest ih =>
    intro db mgr p hp
    cases e with
    | wsDisconnect =>
      rw [messageLoop_wsDisconnect] at hp
      rw [broadcast_to_all_sent_msg _ r _ fails p hp]
      rfl
    | recvError => simp [messageLoop] at hp
    | recv i =>
      cases i with
      | malformed => simp [messageLoop] at hp
      | parsed msg =>
        rw [messageLoop_parsed] at hp
        rcases List.mem_append.mp hp with hp | hp
        · exact handleParsed_sent_not_init db mgr r ws fails msg p hp
        · exact ih _ _ p hp

/-- The endpoint on an existing room, with a healthy joiner. -/
theorem websocket_endpoint_some (db : DB) (mgr : ConnectionManager) (ws : Chan)
    (r : RoomId) (fails : Chan → Bool) (events : List Event) (room : Room)
    (hroom : get_room db r = some room) (hfw : fails ws = false) :
    websocket_endpoint db mgr ws r fails events
      = ⟨(messageLoop db ((mgr.connect ws r).broadcast_to_all r
            (ServerMsg.user_count ((mgr.connect ws r).get_room_user_count r)) fails).2
            r ws fails events).db,
         (messageLoop db ((mgr.connect ws r).broadcast_to_all r
            (ServerMsg.user_count ((mgr.connect ws r).get_room_user_count r)) fails).2
            r ws fails events).mgr,
         (ws, ServerMsg.init room.code r room.language)
           :: ((mgr.connect ws r).broadcast_to_all r
                (ServerMsg.user_count ((mgr.connect ws r).get_room_user_count r)) fails).1
           ++ (messageLoop db ((mgr.connect ws r).broadcast_to_all r
                (ServerMsg.user_count ((mgr.connect ws r).get_room_user_count r)) fails).2
                r ws fails events).sent,
         (messageLoop db ((mgr.connect ws r).broadcast_to_all r
            (ServerMsg.user_count ((mgr.connect ws r).get_room_user_count r)) fails).2
            r ws fails events).outcome⟩ := by
  simp only [websocket_endpoint, hroom]
  rw [if_neg (by simp [hfw])]

/-! ### Claim theorems -/

/-- C1: for a room with at least one admitted channel, `broadcast`
(BroadcastExcept) delivers the message to every admitted channel except
the sender and never delivers it back to the sender, while
`broadcast_to_all` (BroadcastAll) delivers to every currently-admitted
channel including the sender. -/
theorem broadcast_except_and_all_delivery
    (m : ConnectionManager) (r : RoomId) (msg : ServerMsg) (sender : Chan)
    (fails : Chan → Bool) (l : List Chan)
    (hl : m.lookupRoom r = some l) (hne : l ≠ [])
    (hok : ∀ c ∈ l, fails c = false) :
    ((m.broadcast r msg (some sender) fails).1
        = (l.filter (fun c => c ≠ sender)).map (fun c => (c, msg)))
    ∧ (∀ (fails2 : Chan → Bool) (p : Chan × ServerMsg),
        p ∈ (m.broadcast r msg (some sender) fails2).1 → p.1 ≠ sender)
    ∧ ((m.broadcast_to_all r msg fails).1 = l.map (fun c => (c, msg))) := by
  refine ⟨?_, ?_, ?_⟩
  · rw [broadcast_eq m r msg (some sender) fails l hl]
    show List.map _ _ = List.map _ _
    congr 1
    apply List.filter_congr
    intro c hc
    simp [hok c hc]
  · intro fails2 p hp
    rw [broadcast_eq m r msg (some sender) fails2 l hl] at hp
    rcases List.mem_map.mp hp with ⟨c, hc, hpc⟩
    rcases List.mem_filter.mp hc with ⟨_, hpred⟩
    simp at hpred
    rw [← hpc]
    exact hpred.1
  · rw [broadcast_to_all_eq m r msg fails l hl]
    have hfl : l.filter (fun c => !fails c) = l :=
      List.filter_eq_self.mpr (fun c hc => by simp [hok c hc])
    rw [hfl]

/-- C1 witness at a concrete three-member room. -/
theorem broadcast_except_and_all_delivery_witness :
    ((⟨[("r", [1, 2, 3])]⟩ : ConnectionManager).broadcast "r" (ServerMsg.user_count 5)
        (some 2) (fun _ => false)).1
      = [(1, ServerMsg.user_count 5), (3, ServerMsg.user_count 5)]
    ∧ ((⟨[("r", [1, 2, 3])]⟩ : ConnectionManager).broadcast_to_all "r"
        (ServerMsg.user_count 5) (fun _ => false)).1
      = [(1, ServerMsg.user_count 5), (2, ServerMsg.user_count 5),
         (3, ServerMsg.user_count 5)] := by
  have h := broadcast_except_and_all_delivery ⟨[("r", [1, 2, 3])]⟩ "r"
    (ServerMsg.user_count 5) 2 (fun _ => false) [1, 2, 3] (by decide) (by decide)
    (fun c _ => rfl)
  refine ⟨?_, ?_⟩
  · rw [h.1]
    decide
  · rw [h.2.2]
    decide

/-- C2: the registry invariant (every entry has at least one live
connection, the entry for a room is pruned the instant its last
connection is removed) is preserved by every registry operation, and
`get_room_user_count` returns the membership size, 0 for a missing
entry. -/
theorem registry_invariant_and_count
    (m : ConnectionManager) (ws : Chan) (r : RoomId) (msg : ServerMsg)
    (sender : Option Chan) (fails : Chan → Bool) (hm : Good m) :
    Good (m.connect ws r)
    ∧ Good (m.disconnect ws r)
    ∧ Good (m.broadcast r msg sender fails).2
    ∧ Good (m.broadcast_to_all r msg fails).2
    ∧ (∀ l, m.lookupRoom r = some l → m.get_room_user_count r = l.length ∧ l ≠ [])
    ∧ (m.lookupRoom r = none → m.get_room_user_count r = 0)
    ∧ (m.lookupRoom r = some [ws] → (m.disconnect ws r).lookupRoom r = none) := by
  refine ⟨good_connect m ws r hm, good_disconnect m ws r hm,
    good_broadcast m r msg sender fails hm, good_broadcast_to_all m r msg fails hm,
    ?_, ?_, ?_⟩
  · intro l hl
    refine ⟨?_, hm.2 (r, l) (alistFind_mem m.active_connections r l hl)⟩
    unfold ConnectionManager.get_room_user_count
    rw [hl]
    rfl
  · intro hl
    unfold ConnectionManager.get_room_user_count
    rw [hl]
    rfl
  · intro hl
    rw [disconnect_mem_last m ws r [ws] hl (by simp) (by simp)]
    exact lookupRoom_delRoom_self m r hm.1

/-- C2 witness: a one-member room is pruned by the disconnect of its
last member, and counts are as stated. -/
theorem registry_invariant_and_count_witness :
    Good ((⟨[("r", [7])]⟩ : ConnectionManager).connect 3 "r")
    ∧ (⟨[("r", [7])]⟩ : ConnectionManager).get_room_user_count "r" = 1
    ∧ ((⟨[("r", [7])]⟩ : ConnectionManager).disconnect 7 "r").lookupRoom "r" = none := by
  have h := registry_invariant_and_count ⟨[("r", [7])]⟩ 7 "r" (ServerMsg.user_count 0)
    none (fun _ => false)
    ⟨by unfold KeysNodup; decide, by unfold NoEmptyRooms; decide⟩
  have h3 := registry_invariant_and_count ⟨[("r", [7])]⟩ 3 "r" (ServerMsg.user_count 0)
    none (fun _ => false)
    ⟨by unfold KeysNodup; decide, by unfold NoEmptyRooms; decide⟩
  exact ⟨h3.1, (h.2.2.2.2.1 [7] (by decide)).1, h.2.2.2.2.2.2 (by decide)⟩

/-- C3: if sending to a channel `c` raises during either broadcast
call, delivery still proceeds to every remaining healthy channel, `c`
receives nothing, and `c` has been removed from the room's membership
by the time the call returns. -/
theorem broadcast_failure_isolation
    (m : ConnectionManager) (r : RoomId) (msg : ServerMsg) (sender : Chan)
    (fails : Chan → Bool) (c : Chan) (l : List Chan)
    (hm : Good m) (hl : m.lookupRoom r = some l) (hlnd : l.Nodup)
    (hc : c ∈ l) (hfail : fails c = true) :
    ((c ≠ sender →
        (∀ p ∈ (m.broadcast r msg (some sender) fails).1, p.1 ≠ c)
        ∧ (∀ c2 ∈ l, c2 ≠ sender → fails c2 = false →
              (c2, msg) ∈ (m.broadcast r msg (some sender) fails).1)
        ∧ (∀ l2, ((m.broadcast r msg (some sender) fails).2).lookupRoom r = some l2 →
              c ∉ l2))
    ∧ ((∀ p ∈ (m.broadcast_to_all r msg fails).1, p.1 ≠ c)
        ∧ (∀ c2 ∈ l, fails c2 = false → (c2, msg) ∈ (m.broadcast_to_all r msg fails).1)
        ∧ (∀ l2, ((m.broadcast_to_all r msg fails).2).lookupRoom r = some l2 →
              c ∉ l2))) := by
  have key : ∀ (ds : List Chan), (∀ x ∈ ds, x ∈ l) → ds.Nodup → c ∈ ds →
      ∀ l2, (ds.foldl (fun mm conn => mm.disconnect conn r) m).lookupRoom r = some l2 →
        c ∉ l2 := by
    intro ds hsub hdnd hcds l2 hl2 hcl2
    rw [foldl_disconnect_lookup r ds m l hm hl hlnd hsub hdnd] at hl2
    by_cases hf : l.filter (fun x => decide (x ∉ ds)) = []
    · rw [if_pos hf] at hl2
      exact Option.noConfusion hl2
    · rw [if_neg hf] at hl2
      have heq : l2 = l.filter (fun x => decide (x ∉ ds)) := (Option.some.inj hl2).symm
      rw [heq] at hcl2
      have hmem := List.mem_filter.mp hcl2
      simp at hmem
      exact hmem.2 hcds
  constructor
  · intro hcs
    refine ⟨?_, ?_, ?_⟩
    · intro p hp
      rw [broadcast_eq m r msg (some sender) fails l hl] at hp
      rcases List.mem_map.mp hp with ⟨c2, hc2, hpc⟩
      rcases List.mem_filter.mp hc2 with ⟨_, hpred⟩
      simp at hpred
      rw [← hpc]
      show c2 ≠ c
      intro hcc
      rw [hcc] at hpred
      rw [hpred.2] at hfail
      exact Bool.false_ne_true hfail
    · intro c2 hc2 hc2s hc2f
      rw [broadcast_eq m r msg (some sender) fails l hl]
      exact List.mem_map.mpr ⟨c2, List.mem_filter.mpr ⟨hc2, by simp [hc2s, hc2f]⟩, rfl⟩
    · intro l2 hl2
      rw [broadcast_eq m r msg (some sender) fails l hl] at hl2
      refine key _ (fun x hx => List.mem_of_mem_filter hx) (hlnd.filter _) ?_ l2 hl2
      exact List.mem_filter.mpr ⟨hc, by simp [hcs, hfail]⟩
  · refine ⟨?_, ?_, ?_⟩
    · intro p hp
      rw [broadcast_to_all_eq m r msg fails l hl] at hp
      rcases List.mem_map.mp hp with ⟨c2, hc2, hpc⟩
      rcases List.mem_filter.mp hc2 with ⟨_, hpred⟩
      simp at hpred
      rw [← hpc]
      show c2 ≠ c
      intro hcc
      rw [hcc] at hpred
      rw [hpred] at hfail
      exact Bool.false_ne_true hfail
    · intro c2 hc2 hc2f
      rw [broadcast_to_all_eq m r msg fails l hl]
      exact List.mem_map.mpr ⟨c2, List.mem_filter.mpr ⟨hc2, by simp [hc2f]⟩, rfl⟩
    · intro l2 hl2
      rw [broadcast_to_all_eq m r msg fails l hl] at hl2
      refine key _ (fun x hx => List.mem_of_mem_filter hx) (hlnd.filter _) ?_ l2 hl2
      exact List.mem_filter.mpr ⟨hc, by simp [hfail]⟩

/-- C3 witness: in a room {1,2,3} where channel 2's send raises,
channel 1 still gets the message and 2 is gone from the membership. -/
theorem broadcast_failure_isolation_witness :
    (1, ServerMsg.user_count 9) ∈ ((⟨[("r", [1, 2, 3])]⟩ : ConnectionManager).broadcast
        "r" (ServerMsg.user_count 9) (some 3) (fun x => x == 2)).1
    ∧ (2 : Chan) ∉ [1, 3] := by
  have h := broadcast_failure_isolation ⟨[("r", [1, 2, 3])]⟩ "r" (ServerMsg.user_count 9)
    3 (fun x => x == 2) 2 [1, 2, 3]
    ⟨by unfold KeysNodup; decide, by unfold NoEmptyRooms; decide⟩
    (by decide) (by decide) (by decide) (by decide)
  exact ⟨(h.1 (by decide)).2.1 1 (by decide) (by decide) (by decide),
    h.2.2.2 [1, 3] (by decide)⟩

/-- C4 counterexample: the close reason the endpoint actually uses for
a missing room is "Room not found" (capital R), not "room not found" as
the claim states. -/
theorem room_not_found_reason_counterexample :
    (websocket_endpoint [] ⟨[]⟩ 0 "zzzzzzzz" (fun _ => false) []).outcome
        = CloseAction.rejected 4004 "Room not found"
    ∧ (websocket_endpoint [] ⟨[]⟩ 0 "zzzzzzzz" (fun _ => false) []).outcome
        ≠ CloseAction.rejected 4004 "room not found" := by
  refine ⟨rfl, ?_⟩
  intro h
  have := CloseAction.rejected.inj h
  exact absurd this.2 (by decide)

/-- C4 amended: a connection attempt to a missing room is closed
immediately with code 4004 and reason "Room not found", nothing is
admitted and both the registry and the store are left unchanged. -/
theorem room_not_found_rejection (db : DB) (mgr : ConnectionManager) (ws : Chan)
    (r : RoomId) (fails : Chan → Bool) (events : List Event)
    (h : get_room db r = none) :
    websocket_endpoint db mgr ws r fails events
      = ⟨db, mgr, [], CloseAction.rejected 4004 "Room not found"⟩ := by
  unfold websocket_endpoint
  rw [h]

/-- C4 witness: joining an unknown room id on an empty system. -/
theorem room_not_found_rejection_witness :
    websocket_endpoint [] ⟨[("q", [4])]⟩ 9 "nosuchrm" (fun _ => false)
        [Event.wsDisconnect]
      = ⟨[], ⟨[("q", [4])]⟩, [], CloseAction.rejected 4004 "Room not found"⟩ :=
  room_not_found_rejection [] ⟨[("q", [4])]⟩ 9 "nosuchrm" (fun _ => false)
    [Event.wsDisconnect] (by decide)

/-- C5 counterexample: a malformed frame does not leave the connection
in the streaming loop with no side effect — `json.loads` raises, the
generic exception handler runs, the channel is deregistered and the
handler exits. -/
theorem malformed_frame_counterexample :
    (messageLoop [] ⟨[("r", [0, 1])]⟩ "r" 0 (fun _ => false)
        [Event.recv Inbound.malformed]).outcome ≠ CloseAction.pending
    ∧ (messageLoop [] ⟨[("r", [0, 1])]⟩ "r" 0 (fun _ => false)
        [Event.recv Inbound.malformed]).mgr
      ≠ (⟨[("r", [0, 1])]⟩ : ConnectionManager) := by
  refine ⟨by decide, by decide⟩

/-- C5 amended: a parsed message whose type is not one of code_update,
cursor_move, code_output is ignored with no side effect and the
connection stays in the streaming loop; a malformed (unparseable) frame
instead terminates the loop through the generic exception handler,
which removes the channel from the registry. -/
theorem unknown_type_ignored_malformed_fatal
    (db : DB) (mgr : ConnectionManager) (r : RoomId) (ws : Chan)
    (fails : Chan → Bool) (msg : JsonMsg) (rest : List Event)
    (h1 : msg.type ≠ some "code_update") (h2 : msg.type ≠ some "cursor_move")
    (h3 : msg.type ≠ some "code_output") :
    handleParsed db mgr r ws fails msg = (db, mgr, [])
    ∧ messageLoop db mgr r ws fails (Event.recv (Inbound.parsed msg) :: rest)
        = messageLoop db mgr r ws fails rest
    ∧ (messageLoop db mgr r ws fails [Event.recv (Inbound.parsed msg)]).outcome
        = CloseAction.pending
    ∧ messageLoop db mgr r ws fails (Event.recv Inbound.malformed :: rest)
        = ⟨db, mgr.disconnect ws r, [], CloseAction.errored⟩ := by
  have hh : handleParsed db mgr r ws fails msg = (db, mgr, []) := by
    unfold handleParsed
    rw [if_neg h1, if_neg h2, if_neg h3]
  refine ⟨hh, ?_, ?_, rfl⟩
  · show (⟨_, _, _, _⟩ : RunResult) = _
    rw [hh]
    rfl
  · show (⟨_, _, _, _⟩ : RunResult).outcome = _
    rw [hh]
    rfl

/-- C5 witness: a message of type "chat" with one other event pending. -/
theorem unknown_type_ignored_malformed_fatal_witness :
    handleParsed [] ⟨[("r", [0, 1])]⟩ "r" 0 (fun _ => false)
        { type := some "chat" } = ([], ⟨[("r", [0, 1])]⟩, [])
    ∧ (messageLoop [] ⟨[("r", [0, 1])]⟩ "r" 0 (fun _ => false)
        [Event.recv (Inbound.parsed { type := some "chat" })]).outcome
      = CloseAction.pending := by
  have h := unknown_type_ignored_malformed_fatal [] ⟨[("r", [0, 1])]⟩ "r" 0
    (fun _ => false) { type := some "chat" } [] (by decide) (by decide) (by decide)
  exact ⟨h.1, h.2.2.1⟩

/-- C6 counterexample: with channels 0 and 1 in the room, an unexpected
read error on channel 0's connection removes 0 from the registry but
broadcasts nothing — in particular the remaining member 1 does not
receive the decremented user_count envelope, while a normal disconnect
does deliver it. -/
theorem error_cleanup_no_user_count_counterexample :
    (messageLoop [] ⟨[("r", [0, 1])]⟩ "r" 0 (fun _ => false) [Event.recvError]).sent = []
    ∧ (messageLoop [] ⟨[("r", [0, 1])]⟩ "r" 0 (fun _ => false) [Event.recvError]).mgr
        = (⟨[("r", [1])]⟩ : ConnectionManager)
    ∧ (1, ServerMsg.user_count 1) ∉
        (messageLoop [] ⟨[("r", [0, 1])]⟩ "r" 0 (fun _ => false) [Event.recvError]).sent
    ∧ (1, ServerMsg.user_count 1) ∈
        (messageLoop [] ⟨[("r", [0, 1])]⟩ "r" 0 (fun _ => false) [Event.wsDisconnect]).sent := by
  refine ⟨by decide, by decide, by decide, by decide⟩

/-- C6 amended: a streaming loop terminated by an unexpected exception
removes the channel from the registry but, unlike a normal disconnect,
broadcasts no user_count envelope (and changes nothing else). -/
theorem error_cleanup_removes_only (db : DB) (mgr : ConnectionManager) (r : RoomId)
    (ws : Chan) (fails : Chan → Bool) (rest : List Event) :
    messageLoop db mgr r ws fails (Event.recvError :: rest)
      = ⟨db, mgr.disconnect ws r, [], CloseAction.errored⟩ := rfl

/-- C7: a failed Room Store write during a code_update (update_room_code
reporting failure) does not crash the connection task: the store is left
as it was, the code_update envelope is still broadcast to the other
members, and the handler stays in the streaming loop. -/
theorem persistence_failure_does_not_stop_relay
    (db : DB) (mgr : ConnectionManager) (r : RoomId) (ws : Chan)
    (fails : Chan → Bool) (msg : JsonMsg) (l : List Chan)
    (htype : msg.type = some "code_update")
    (hfail : (update_room_code db r (msg.code.getD "")).1 = false)
    (hl : mgr.lookupRoom r = some l) :
    handleParsed db mgr r ws fails msg
      = (db,
         (mgr.broadcast r (ServerMsg.code_update (msg.code.getD "")
            (msg.cursorPosition.getD 0)) (some ws) fails).2,
         (mgr.broadcast r (ServerMsg.code_update (msg.code.getD "")
            (msg.cursorPosition.getD 0)) (some ws) fails).1)
    ∧ (∀ c ∈ l, c ≠ ws → fails c = false →
        (c, ServerMsg.code_update (msg.code.getD "") (msg.cursorPosition.getD 0))
          ∈ (handleParsed db mgr r ws fails msg).2.2)
    ∧ (messageLoop db mgr r ws fails [Event.recv (Inbound.parsed msg)]).outcome
        = CloseAction.pending := by
  have hdb := update_room_code_failed db r (msg.code.getD "") hfail
  have hh : handleParsed db mgr r ws fails msg
      = (db,
         (mgr.broadcast r (ServerMsg.code_update (msg.code.getD "")
            (msg.cursorPosition.getD 0)) (some ws) fails).2,
         (mgr.broadcast r (ServerMsg.code_update (msg.code.getD "")
            (msg.cursorPosition.getD 0)) (some ws) fails).1) := by
    unfold handleParsed
    rw [if_pos htype]
    show ((update_room_code db r (msg.code.getD "")).2, _, _) = _
    rw [hdb]
  refine ⟨hh, ?_, rfl⟩
  intro c hc hcw hcf
  rw [hh]
  show _ ∈ (mgr.broadcast r _ (some ws) fails).1
  rw [broadcast_eq mgr r _ (some ws) fails l hl]
  exact List.mem_map.mpr ⟨c, List.mem_filter.mpr ⟨hc, by simp [hcw, hcf]⟩, rfl⟩

/-- C7 witness: the store has no room "r", so the write fails, yet the
other member still receives the update and the loop stays open. -/
theorem persistence_failure_does_not_stop_relay_witness :
    (1, ServerMsg.code_update "x" 3) ∈
      (handleParsed [] ⟨[("r", [0, 1])]⟩ "r" 0 (fun _ => false)
        ⟨some "code_update", some "x", some 3, none, none, none⟩).2.2
    ∧ (messageLoop [] ⟨[("r", [0, 1])]⟩ "r" 0 (fun _ => false)
        [Event.recv (Inbound.parsed
          ⟨some "code_update", some "x", some 3, none, none, none⟩)]).outcome
      = CloseAction.pending := by
  have h := persistence_failure_does_not_stop_relay [] ⟨[("r", [0, 1])]⟩ "r" 0
    (fun _ => false)
    ⟨some "code_update", some "x", some 3, none, none, none⟩
    [0, 1] rfl (by decide) (by decide)
  exact ⟨h.2.1 1 (by decide) (by decide) rfl, h.2.2⟩

/-- C8: a successful join sends exactly one init envelope (with the
room's code, language and roomId) to the joiner and to nobody else, and
a user_count envelope with the incremented total is broadcast to every
member of the room including the joiner. -/
theorem join_init_and_user_count
    (db : DB) (mgr : ConnectionManager) (ws : Chan) (r : RoomId)
    (fails : Chan → Bool) (events : List Event) (room : Room)
    (hroom : get_room db r = some room) (hfails : ∀ c, fails c = false) :
    ((websocket_endpoint db mgr ws r fails events).sent.filter (fun p => p.2.isInit)
        = [(ws, ServerMsg.init room.code r room.language)])
    ∧ ((mgr.connect ws r).get_room_user_count r
        = ((mgr.lookupRoom r).getD []).length + 1)
    ∧ (∀ c ∈ ((mgr.lookupRoom r).getD []) ++ [ws],
        (c, ServerMsg.user_count (((mgr.lookupRoom r).getD []).length + 1))
          ∈ (websocket_endpoint db mgr ws r fails events).sent)
    ∧ ws ∈ ((mgr.lookupRoom r).getD []) ++ [ws] := by
  have hconn : (mgr.connect ws r).lookupRoom r
      = some (((mgr.lookupRoom r).getD []) ++ [ws]) := lookupRoom_connect_self mgr ws r
  have hcount : (mgr.connect ws r).get_room_user_count r
      = ((mgr.lookupRoom r).getD []).length + 1 := by
    unfold ConnectionManager.get_room_user_count
    rw [hconn]
    simp
  have huc : ((mgr.connect ws r).broadcast_to_all r
      (ServerMsg.user_count ((mgr.connect ws r).get_room_user_count r)) fails).1
      = (((mgr.lookupRoom r).getD []) ++ [ws]).map
          (fun c => (c, ServerMsg.user_count
            ((((mgr.lookupRoom r).getD []).length + 1)))) := by
    rw [broadcast_to_all_eq _ r _ fails _ hconn, hcount]
    show List.map _ _ = List.map _ _
    congr 1
    exact List.filter_eq_self.mpr (fun c _ => by simp [hfails c])
  rw [websocket_endpoint_some db mgr ws r fails events room hroom (hfails ws)]
  refine ⟨?_, hcount, ?_, by simp⟩
  · have h1 : (((mgr.connect ws r).broadcast_to_all r
        (ServerMsg.user_count ((mgr.connect ws r).get_room_user_count r)) fails).1).filter
          (fun p => p.2.isInit) = [] := by
      rw [List.filter_eq_nil_iff]
      intro p hp
      rw [broadcast_to_all_sent_msg _ r _ fails p hp]
      simp [ServerMsg.isInit]
    have h2 : ((messageLoop db ((mgr.connect ws r).broadcast_to_all r
        (ServerMsg.user_count ((mgr.connect ws r).get_room_user_count r)) fails).2
        r ws fails events).sent).filter (fun p => p.2.isInit) = [] := by
      rw [List.filter_eq_nil_iff]
      intro p hp
      rw [messageLoop_no_init r ws fails events _ _ p hp]
      simp
    simp only [List.filter_cons, List.filter_append]
    rw [h1, h2]
    simp [ServerMsg.isInit]
  · intro c hc
    show _ ∈ _ :: _ ++ _
    refine List.mem_cons_of_mem _ (List.mem_append_left _ ?_)
    rw [huc]
    exact List.mem_map.mpr ⟨c, hc, rfl⟩

/-- C8 witness: channel 5 joins room "abc12345" already containing
channel 4; it gets the init snapshot and everyone gets user_count 2. -/
theorem join_init_and_user_count_witness :
    ((websocket_endpoint [("abc12345", ⟨"x=1\n", "python"⟩)] ⟨[("abc12345", [4])]⟩ 5
        "abc12345" (fun _ => false) []).sent.filter (fun p => p.2.isInit)
      = [(5, ServerMsg.init "x=1\n" "abc12345" "python")])
    ∧ (4, ServerMsg.user_count 2) ∈
        (websocket_endpoint [("abc12345", ⟨"x=1\n", "python"⟩)] ⟨[("abc12345", [4])]⟩ 5
          "abc12345" (fun _ => false) []).sent := by
  have h := join_init_and_user_count [("abc12345", ⟨"x=1\n", "python"⟩)]
    ⟨[("abc12345", [4])]⟩ 5 "abc12345" (fun _ => false) [] ⟨"x=1\n", "python"⟩
    (by decide) (fun _ => rfl)
  exact ⟨h.1, h.2.2.1 4 (by decide)⟩

/-- C9: a code_update from a streaming client overwrites the room's
stored code wholesale (last-writer-wins, no merge) and relays the same
code_update envelope to every other member of the room; the sender
receives nothing back. -/
theorem code_update_persist_then_relay
    (db : DB) (mgr : ConnectionManager) (r : RoomId) (ws : Chan)
    (msg : JsonMsg) (code : String) (cp : Int) (room : Room) (l : List Chan)
    (fails : Chan → Bool)
    (htype : msg.type = some "code_update")
    (hcode : msg.code = some code) (hcp : msg.cursorPosition = some cp)
    (hroom : get_room db r = some room) (hl : mgr.lookupRoom r = some l)
    (hok : ∀ c ∈ l, fails c = false) :
    get_room (handleParsed db mgr r ws fails msg).1 r = some { room with code := code }
    ∧ (handleParsed db mgr r ws fails msg).2.2
        = (l.filter (fun c => c ≠ ws)).map (fun c => (c, ServerMsg.code_update code cp))
    ∧ (∀ p ∈ (handleParsed db mgr r ws fails msg).2.2, p.1 ≠ ws) := by
  have hh : handleParsed db mgr r ws fails msg
      = ((update_room_code db r code).2,
         (mgr.broadcast r (ServerMsg.code_update code cp) (some ws) fails).2,
         (mgr.broadcast r (ServerMsg.code_update code cp) (some ws) fails).1) := by
    unfold handleParsed
    rw [if_pos htype, hcode, hcp]
    rfl
  refine ⟨?_, ?_, ?_⟩
  · rw [hh]
    exact get_room_update_room_code db r code room hroom
  · rw [hh]
    show (mgr.broadcast r (ServerMsg.code_update code cp) (some ws) fails).1 = _
    rw [broadcast_eq mgr r _ (some ws) fails l hl]
    show List.map _ _ = List.map _ _
    congr 1
    apply List.filter_congr
    intro c hc
    simp [hok c hc]
  · intro p hp
    rw [hh] at hp
    rw [broadcast_eq mgr r _ (some ws) fails l hl] at hp
    rcases List.mem_map.mp hp with ⟨c, hc, hpc⟩
    rcases List.mem_filter.mp hc with ⟨_, hpred⟩
    simp at hpred
    rw [← hpc]
    exact hpred.1

/-- C9 witness: A (channel 0) sends code_update "y=2"; B (channel 1)
gets exactly that envelope, the store now holds "y=2", A gets nothing. -/
theorem code_update_persist_then_relay_witness :
    get_room (handleParsed [("R8", ⟨"old", "python"⟩)] ⟨[("R8", [0, 1])]⟩ "R8" 0
        (fun _ => false)
        ⟨some "code_update", some "y=2", some 3, none, none, none⟩).1 "R8"
      = some ⟨"y=2", "python"⟩
    ∧ (handleParsed [("R8", ⟨"old", "python"⟩)] ⟨[("R8", [0, 1])]⟩ "R8" 0
        (fun _ => false)
        ⟨some "code_update", some "y=2", some 3, none, none, none⟩).2.2
      = [(1, ServerMsg.code_update "y=2" 3)] := by
  have h := code_update_persist_then_relay [("R8", ⟨"old", "python"⟩)]
    ⟨[("R8", [0, 1])]⟩ "R8" 0
    ⟨some "code_update", some "y=2", some 3, none, none, none⟩ "y=2" 3
    ⟨"old", "python"⟩ [0, 1] (fun _ => false) rfl rfl rfl (by decide) (by decide)
    (fun c _ => rfl)
  refine ⟨h.1, ?_⟩
  rw [h.2.1]
  decide

/-- C10: a code_update whose parsed object has no code field persists
the empty string as the room's code and broadcasts a code_update
envelope with empty code and cursorPosition 0 to the other members. -/
theorem code_update_missing_code_persists_empty
    (db : DB) (mgr : ConnectionManager) (r : RoomId) (ws : Chan)
    (msg : JsonMsg) (room : Room) (l : List Chan) (fails : Chan → Bool)
    (htype : msg.type = some "code_update")
    (hcode : msg.code = none) (hcp : msg.cursorPosition = none)
    (hroom : get_room db r = some room) (hl : mgr.lookupRoom r = some l)
    (hok : ∀ c ∈ l, fails c = false) :
    get_room (handleParsed db mgr r ws fails msg).1 r = some { room with code := "" }
    ∧ (handleParsed db mgr r ws fails msg).2.2
        = (l.filter (fun c => c ≠ ws)).map
            (fun c => (c, ServerMsg.code_update "" 0)) := by
  have hh : handleParsed db mgr r ws fails msg
      = ((update_room_code db r "").2,
         (mgr.broadcast r (ServerMsg.code_update "" 0) (some ws) fails).2,
         (mgr.broadcast r (ServerMsg.code_update "" 0) (some ws) fails).1) := by
    unfold handleParsed
    rw [if_pos htype, hcode, hcp]
    rfl
  refine ⟨?_, ?_⟩
  · rw [hh]
    exact get_room_update_room_code db r "" room hroom
  · rw [hh]
    show (mgr.broadcast r (ServerMsg.code_update "" 0) (some ws) fails).1 = _
    rw [broadcast_eq mgr r _ (some ws) fails l hl]
    show List.map _ _ = List.map _ _
    congr 1
    apply List.filter_congr
    intro c hc
    simp [hok c hc]

/-- C10 witness: a code_update with no code field wipes the stored code
of room "r" to "" and channel 1 receives the empty update. -/
theorem code_update_missing_code_persists_empty_witness :
    get_room (handleParsed [("r", ⟨"keep me", "python"⟩)] ⟨[("r", [0, 1])]⟩ "r" 0
        (fun _ => false)
        ⟨some "code_update", none, none, none, none, none⟩).1 "r"
      = some ⟨"", "python"⟩
    ∧ (handleParsed [("r", ⟨"keep me", "python"⟩)] ⟨[("r", [0, 1])]⟩ "r" 0
        (fun _ => false)
        ⟨some "code_update", none, none, none, none, none⟩).2.2
      = [(1, ServerMsg.code_update "" 0)] := by
  have h := code_update_missing_code_persists_empty [("r", ⟨"keep me", "python"⟩)]
    ⟨[("r", [0, 1])]⟩ "r" 0
    ⟨some "code_update", none, none, none, none, none⟩ ⟨"keep me", "python"⟩
    [0, 1] (fun _ => false) rfl rfl rfl (by decide) (by decide) (fun c _ => rfl)
  refine ⟨h.1, ?_⟩
  rw [h.2]
  decide

end PairProg
